import Mathlib

/-!
Shallow embedding of `canada_tax/processor.py` (satchmo Canada tax processor).

Monetary and rate values are Python `Decimal`s; the module performs exact
decimal arithmetic with no internal rounding, which we model with `ℚ`.
Django ORM lookups are modelled over explicit in-memory lists of records;
`_get_location` (which only reads external geography/config data that is not
the subject of any claim) is abstracted as the pair of optional strings it
returns, stored in the environment.
-/

namespace CanadaTax

/-- `product.models.TaxClass` row: identified by primary key, carries a title.
(Foreign keys in `TaxRate` refer to the primary key, as Django compares rows
by pk.) -/
structure TaxClass where
  id : Nat
  title : String
deriving DecidableEq, Repr

/-- `canada_tax.models.CanadianTaxRate` row, with the fields the processor
reads: `taxCode`, `percentage`, `compound`, `compound_order`, `override`,
and the `taxClass` / `taxZone` / `taxCountry` foreign keys (the latter two
nullable, modelled as the referenced area/country name). -/
structure TaxRate where
  taxCode : String
  percentage : ℚ
  compound : Bool
  compound_order : Int
  override : Bool
  taxClass : Nat
  taxZone : Option String
  taxCountry : Option String
deriving DecidableEq, Repr

/-- Comparison key used by `sorted(..., key=operator.attrgetter("compound_order"))`:
Python's `sorted` is a stable ascending sort, modelled by `List.mergeSort`
with this `le`. -/
def compound_le (a b : TaxRate) : Bool := a.compound_order ≤ b.compound_order

/-- One step of the `for rate in regular_rates` loop (processor.py:149-151):
append `(taxCode, percentage)` to the receipt and add the percentage to the
running total. -/
def addRegular (acc : ℚ × List (String × ℚ)) (r : TaxRate) : ℚ × List (String × ℚ) :=
  (acc.1 + r.percentage, acc.2 ++ [(r.taxCode, r.percentage)])

/-- One step of the `for rate in compound_rates` loop (processor.py:153-156):
the effective percentage is `rate.percentage + rate.percentage * totalrate`
computed from the running total so far. -/
def addCompound (acc : ℚ × List (String × ℚ)) (r : TaxRate) : ℚ × List (String × ℚ) :=
  let percentage := r.percentage + r.percentage * acc.1
  (acc.1 + percentage, acc.2 ++ [(r.taxCode, percentage)])

/-- `Processor.tax_rate_list` (processor.py:130-158). -/
def tax_rate_list (rates : List TaxRate) : ℚ × List (String × ℚ) :=
  if rates.isEmpty then (0, [])
  else
    match rates.filter (fun r => r.override) with
    | rate :: _ => (rate.percentage, [(rate.taxCode, rate.percentage)])
    | [] =>
      let regular_rates := rates.filter (fun r => !r.compound)
      let compound_rates := (rates.filter (fun r => r.compound)).mergeSort compound_le
      compound_rates.foldl addCompound (regular_rates.foldl addRegular (0, []))

/-- Exceptions the processor code can raise: Django's `DoesNotExist` and
`MultipleObjectsReturned` (from `.objects.get`), `ImproperlyConfigured`
(processor.py:103), and Python's `KeyError` (raised by the dict read at
processor.py:255). `MultipleObjectsReturned` is not a subclass of
`ObjectDoesNotExist`, so the `except` at processor.py:191 does not catch it. -/
inductive Err where
  | doesNotExist
  | multipleObjectsReturned
  | improperlyConfigured
  | keyError (key : String)
deriving DecidableEq, Repr

/-- Django `Model.objects.get` over a filtered row list: exactly one row
matches or an exception is raised. -/
def djangoGet (rows : List TaxClass) : Except Err TaxClass :=
  match rows with
  | [] => .error .doesNotExist
  | [c] => .ok c
  | _ :: _ :: _ => .error .multipleObjectsReturned

/-- Django's `__iexact` lookup: case-insensitive exact string match. -/
def iexactMatch (t s : String) : Bool := t.toLower = s.toLower

/-- The livesettings configuration values the processor reads (spec §6);
`TAX_AREA_ADDRESS` is consumed only inside `_get_location`, which is
abstracted below. -/
structure Config where
  TAX_SHIPPING_CANADIAN : Bool
  TAX_CLASS : String
  TAX_SHIPPING_DETAILS_SEPARATE : Bool
deriving DecidableEq, Repr

/-- An order line item as the processor reads it: the product's `taxable`
flag, its (nullable) tax class, and `sub_total`. -/
structure OrderItem where
  taxable : Bool
  taxClass : Option TaxClass
  sub_total : ℚ
deriving DecidableEq, Repr

structure Order where
  items : List OrderItem
  shipping_sub_total : ℚ
deriving DecidableEq, Repr

/-- The processor's environment: the tax-class and tax-rate tables, the
`(area, country)` pair `_get_location` would return (that method reads only
external geography/config data), the configuration, and `self.order`. -/
structure Env where
  classes : List TaxClass
  rates : List TaxRate
  locArea : Option String
  locCountry : Option String
  cfg : Config
  order : Option Order
deriving DecidableEq, Repr

/-- Python truthiness of an optional Decimal: `None` and `Decimal("0.00")`
are falsy. -/
def truthyQ : Option ℚ → Bool
  | none => false
  | some q => q ≠ 0

/-- `if not taxclass: taxclass = "Default"` (processor.py:88-89): `None` and
the empty string are falsy; a `TaxClass` object is always truthy. -/
def normalizeArg : Option (String ⊕ TaxClass) → String ⊕ TaxClass
  | none => .inl "Default"
  | some (.inl s) => if s = "" then .inl "Default" else .inl s
  | some (.inr c) => .inr c

/-- Rate fetching of `get_rate` (processor.py:105-111): rates matching
`(taxClass, taxZone=area)` followed by rates matching
`(taxClass, taxCountry=country)`; each filter runs only when the
area/country object is present (truthy). -/
def ratesFor (env : Env) (tc : TaxClass) (area country : Option String) : List TaxRate :=
  (if area.isSome then
      env.rates.filter (fun r => r.taxClass = tc.id && r.taxZone = area)
    else [])
    ++ (if country.isSome then
      env.rates.filter (fun r => r.taxClass = tc.id && r.taxCountry = country)
    else [])

/-- `Processor.get_rate` (processor.py:87-118), in its `get_object=True`
view: the result pair of `tax_rate_list`; with `get_object=False` the code
returns the first component. When both `area` and `country` are absent the
`_get_location` result is used (processor.py:95-96). A string argument is
resolved case-insensitively against the tax-class table; `DoesNotExist`
becomes `ImproperlyConfigured` (processor.py:99-103). -/
def get_rate (env : Env) (arg : Option (String ⊕ TaxClass)) (area country : Option String) :
    Except Err (ℚ × List (String × ℚ)) :=
  let ac := if !area.isSome && !country.isSome then (env.locArea, env.locCountry)
            else (area, country)
  match normalizeArg arg with
  | .inl s =>
      match djangoGet (env.classes.filter (fun c => iexactMatch c.title s)) with
      | .ok tc => .ok (tax_rate_list (ratesFor env tc ac.1 ac.2))
      | .error .doesNotExist => .error .improperlyConfigured
      | .error e => .error e
  | .inr tc => .ok (tax_rate_list (ratesFor env tc ac.1 ac.2))

/-- Python dict assignment `d[k] = v`: overwrite in place if the key is
present (insertion order kept), else append. -/
def setKey : List (String × ℚ) → String → ℚ → List (String × ℚ)
  | [], k, v => [(k, v)]
  | (k', v') :: rest, k, v =>
      if k' = k then (k, v) :: rest else (k', v') :: setKey rest k v

/-- Python dict read with default 0: `d.get(k, Decimal('0.00'))`. -/
def getD (d : List (String × ℚ)) (k : String) : ℚ :=
  match d.find? (fun p => p.1 = k) with
  | some p => p.2
  | none => 0

/-- Python `k in d`. -/
def hasKey (d : List (String × ℚ)) (k : String) : Bool :=
  (d.find? (fun p => p.1 = k)).isSome

/-- The recurring accumulation idiom
`if k not in d: d[k] = 0` followed by `d[k] += v`. -/
def addTo (d : List (String × ℚ)) (k : String) (v : ℚ) : List (String × ℚ) :=
  setKey d k (getD d k + v)

/-- The `try`/`except ObjectDoesNotExist` at processor.py:187-192: a caught
exception leaves `full_rate = None`, `taxes = []` (their pre-`try` values)
after logging. -/
def catchODNE (x : Except Err (Option ℚ × List (String × ℚ))) :
    Except Err (Option ℚ × List (String × ℚ)) :=
  match x with
  | .error .doesNotExist => .ok (none, [])
  | other => other

/-- `Processor.shipping` (processor.py:178-211). The shipping tax class is
looked up with `title=` (case-sensitive exact match, processor.py:189),
unlike `get_rate`'s `title__iexact`. With `with_details=False` the code
returns only the first component. -/
def shipping (env : Env) (subtotal : Option ℚ) (with_details : Bool) :
    Except Err (ℚ × List (String × ℚ)) :=
  let subtotal := match subtotal, env.order with
    | none, some o => some o.shipping_sub_total
    | s, _ => s
  if truthyQ subtotal then
    let st := subtotal.getD 0
    let fr_taxes : Except Err (Option ℚ × List (String × ℚ)) :=
      if env.cfg.TAX_SHIPPING_CANADIAN then
        catchODNE (do
          let tc ← djangoGet (env.classes.filter (fun c => c.title = env.cfg.TAX_CLASS))
          let rt ← get_rate env (some (.inr tc)) none none
          pure (some rt.1, rt.2))
      else .ok (none, [])
    match fr_taxes with
    | .error e => .error e
    | .ok (full_rate, taxes) =>
        let ship_tax := match full_rate with
          | some fr => if fr ≠ 0 then fr * st else 0
          | none => 0
        let tax_details := if with_details then
            taxes.foldl (fun d p => addTo d p.1 (p.2 * st)) []
          else []
        .ok (ship_tax, tax_details)
  else
    .ok (0, [])

/-- The per-item loop of `Processor.process` (processor.py:227-247) over the
taxable items, threading `(sub_total, tax_details)`. (`taxclass_key`,
processor.py:230-233, is computed but never used afterwards.) -/
def processItems (env : Env) : List OrderItem → (ℚ × List (String × ℚ)) →
    Except Err (ℚ × List (String × ℚ))
  | [], acc => .ok acc
  | item :: rest, (sub_total, tax_details) =>
      match get_rate env (item.taxClass.map Sum.inr) none none with
      | .error e => .error e
      | .ok (full_rate, taxes) =>
          let price := item.sub_total
          let sub_total := sub_total + price * full_rate
          let tax_details := taxes.foldl (fun d p => addTo d p.1 (p.2 * price)) tax_details
          processItems env rest (sub_total, tax_details)

/-- `Processor.process` (processor.py:213-262) with an explicit order:
`self.order = order` first, so the later `self.shipping(with_details=True)`
call sees it. In the separate-details branch the source reads
`ship_tax_details['taxCode']` — the literal string `'taxCode'`, not the loop
variable (processor.py:255) — which raises `KeyError` when no tax code is
literally named `taxCode`. -/
def process (env : Env) (order : Order) : Except Err (ℚ × List (String × ℚ)) :=
  let env := { env with order := some order }
  match processItems env (order.items.filter (fun i => i.taxable)) (0, []) with
  | .error e => .error e
  | .ok (sub_total, tax_details) =>
      match shipping env none true with
      | .error e => .error e
      | .ok (ship_taxes, ship_tax_details) =>
          let sub_total := sub_total + ship_taxes
          if env.cfg.TAX_SHIPPING_DETAILS_SEPARATE then
            match ship_tax_details.foldlM (fun td p =>
                if hasKey ship_tax_details "taxCode" then
                  Except.ok (setKey td ("Shipping " ++ p.1) (getD ship_tax_details "taxCode"))
                else Except.error (Err.keyError "taxCode")) tax_details with
            | .error e => .error e
            | .ok td => .ok (sub_total, td)
          else
            let td := ship_tax_details.foldl (fun td p =>
                setKey td p.1 (getD td p.1 + getD ship_tax_details p.1)) tax_details
            .ok (sub_total, td)

instance {ε α : Type} [DecidableEq ε] [DecidableEq α] : DecidableEq (Except ε α) :=
  fun a b =>
    match a, b with
    | .ok x, .ok y => decidable_of_iff (x = y) (by simp)
    | .error e, .error f => decidable_of_iff (e = f) (by simp)
    | .ok _, .error _ => isFalse (by simp)
    | .error _, .ok _ => isFalse (by simp)

/-- The name `get_rate` looks up, when it looks one up at all: the string
argument when nonempty, the `"Default"` fallback for `None` or `""`, and
`none` for a class-object argument (no lookup happens). -/
def effectiveName (arg : Option (String ⊕ TaxClass)) : Option String :=
  match normalizeArg arg with
  | .inl s => some s
  | .inr _ => none

/-- The per-code breakdown `get_rate` returns for an order item's tax class
exactly as `process` requests it (processor.py:237); empty on the error
path, which hypotheses of the theorems using it exclude. -/
def itemTaxes (env : Env) (item : OrderItem) : List (String × ℚ) :=
  match get_rate env (item.taxClass.map Sum.inr) none none with
  | .ok pr => pr.2
  | .error _ => []

/-- The merchandise contribution per tax code as claim C6 states it: over
the taxable items, each matching code's rate times the item subtotal,
summed. -/
def merchDetail (env : Env) (order : Order) (c : String) : ℚ :=
  ((order.items.filter (fun i => i.taxable)).map (fun it =>
    (((itemTaxes env it).filter (fun p => p.1 = c)).map
      (fun p => p.2 * it.sub_total)).sum)).sum

/-! Sample records used in concrete witnesses and counterexamples. -/

def gstRate : TaxRate := ⟨"GST", 1/20, false, 0, false, 1, none, some "CA"⟩

def pstRate : TaxRate := ⟨"PST", 7/100, true, 1, false, 1, none, some "CA"⟩

def qstRate : TaxRate := ⟨"QST", 1/10, true, 2, false, 1, none, some "CA"⟩

def ovrRate : TaxRate := ⟨"OVR", 13/100, false, 0, true, 1, none, some "CA"⟩

def tiedA : TaxRate := ⟨"A", 1/20, true, 1, false, 1, none, none⟩

def tiedB : TaxRate := ⟨"B", 7/100, true, 1, false, 1, none, none⟩

def shipClass : TaxClass := ⟨1, "Shipping"⟩

def defaultClass : TaxClass := ⟨0, "Default"⟩

/-- Environment with only a "Default" tax class. -/
def envDefaultOnly : Env := ⟨[defaultClass], [], none, none, ⟨false, "Shipping", false⟩, none⟩

/-- Store with a "Shipping" class and GST/PST rates for country "CA", with
`TAX_CLASS` configured in lowercase. -/
def shipEnvCS : Env :=
  ⟨[shipClass], [gstRate, pstRate], none, some "CA", ⟨true, "shipping", false⟩, none⟩

/-- Same store with `TAX_CLASS` matching the stored title's case. -/
def shipEnvCI : Env :=
  ⟨[shipClass], [gstRate, pstRate], none, some "CA", ⟨true, "Shipping", false⟩, none⟩

/-- Environment of the C1 failing input: shipping taxed through class
"Shipping" with a single 5% GST rate for country "CA", and the
separate-details flag enabled. -/
def sepEnv : Env :=
  ⟨[shipClass], [gstRate], none, some "CA", ⟨true, "Shipping", true⟩, none⟩

/-- Order with no line items and a 10.00 shipping subtotal. -/
def sepOrder : Order := ⟨[], 10⟩

/-- Like `sepEnv` but with GST and compound PST rates and the
separate-details flag disabled (merged details). -/
def mergedEnv : Env :=
  ⟨[shipClass], [gstRate, pstRate], none, some "CA", ⟨true, "Shipping", false⟩, none⟩

/-- One taxable 100.00 item in the "Shipping" tax class, 10.00 shipping. -/
def mergedOrder : Order := ⟨[⟨true, some shipClass, 100⟩], 10⟩

/-! ### Lemmas about the two accumulation loops of `tax_rate_list` -/

/-- The regular-rates loop (processor.py:149-151) appends the
`(taxCode, percentage)` pairs in input order and adds the raw percentages to
the running total. -/
theorem foldl_addRegular (regs : List TaxRate) (acc : ℚ × List (String × ℚ)) :
    regs.foldl addRegular acc =
      (acc.1 + (regs.map TaxRate.percentage).sum,
       acc.2 ++ regs.map (fun r => (r.taxCode, r.percentage))) := by
  induction regs generalizing acc with
  | nil => simp
  | cons r rs ih =>
      simp only [List.foldl_cons, ih, List.map_cons, List.sum_cons, addRegular]
      rw [Prod.ext_iff]
      refine ⟨by dsimp; ring, by simp⟩

/-- The compound loop preserves the invariant that the receipt percentages
sum to the running total. -/
theorem receipt_sum_foldl_addCompound (cs : List TaxRate) (acc : ℚ × List (String × ℚ))
    (h : (acc.2.map Prod.snd).sum = acc.1) :
    (((cs.foldl addCompound acc).2).map Prod.snd).sum = (cs.foldl addCompound acc).1 := by
  induction cs generalizing acc with
  | nil => exact h
  | cons c cs ih =>
      apply ih
      simp [addCompound, h]

/-- `find?` returns the head of `filter`. -/
theorem find?_eq_head?_filter {α : Type} (p : α → Bool) (l : List α) :
    l.find? p = (l.filter p).head? := by
  induction l with
  | nil => rfl
  | cons a l ih =>
      by_cases h : p a = true
      · rw [List.find?_cons_of_pos l h, List.filter_cons_of_pos h, List.head?_cons]
      · rw [List.find?_cons_of_neg l h, List.filter_cons_of_neg h, ih]

/-- Shape of `tax_rate_list` when an override record is present: the first
element of the override filter decides the whole result (processor.py:134-139). -/
theorem tax_rate_list_override (rates : List TaxRate) (r : TaxRate) (t : List TaxRate)
    (hfil : rates.filter (fun x => x.override) = r :: t) :
    tax_rate_list rates = (r.percentage, [(r.taxCode, r.percentage)]) := by
  have hmem : r ∈ rates := by
    have hm : r ∈ rates.filter (fun x => x.override) := by
      rw [hfil]; exact List.mem_cons_self r t
    exact List.mem_of_mem_filter hm
  have hne : rates.isEmpty = false := by
    cases rates
    · cases hmem
    · rfl
  unfold tax_rate_list
  rw [hne, hfil]
  with_unfolding_all rfl

/-- Shape of `tax_rate_list` when no override record is present
(processor.py:141-158). -/
theorem tax_rate_list_no_override (rates : List TaxRate) (hne : rates ≠ [])
    (hov : rates.filter (fun x => x.override) = []) :
    tax_rate_list rates =
      ((rates.filter (fun r => r.compound)).mergeSort compound_le).foldl addCompound
        ((rates.filter (fun r => !r.compound)).foldl addRegular (0, [])) := by
  have hne' : rates.isEmpty = false := by
    cases rates
    · exact absurd rfl hne
    · rfl
  unfold tax_rate_list
  rw [hne', hov]
  with_unfolding_all rfl

/-- C5: for every input rate list (empty, override, or any mix of compound
and non-compound records), the percentages in the breakdown returned by
`tax_rate_list` sum exactly to the returned total rate. -/
theorem c5_breakdown_sum_eq_total (rates : List TaxRate) :
    (((tax_rate_list rates).2).map Prod.snd).sum = (tax_rate_list rates).1 := by
  unfold tax_rate_list
  split
  · simp
  · split
    · simp
    · apply receipt_sum_foldl_addCompound
      rw [foldl_addRegular]
      simp [List.map_map, Function.comp_def]

/-- C2: if the rate list contains an override record, `tax_rate_list`
returns the first such record's percentage (in input order) as the total
rate and the singleton breakdown `[(its code, its percentage)]`, regardless
of all other records. -/
theorem c2_override_first_wins (rates : List TaxRate) (r : TaxRate)
    (hfind : rates.find? (fun x => x.override) = some r) :
    tax_rate_list rates = (r.percentage, [(r.taxCode, r.percentage)]) := by
  rw [find?_eq_head?_filter] at hfind
  cases hfil : rates.filter (fun x => x.override) with
  | nil => rw [hfil] at hfind; cases hfind
  | cons a t =>
      rw [hfil] at hfind
      simp only [List.head?_cons, Option.some_inj] at hfind
      subst hfind
      exact tax_rate_list_override rates a t hfil

theorem c2_witness :
    tax_rate_list [gstRate, ovrRate, pstRate] = (13/100, [("OVR", 13/100)]) :=
  c2_override_first_wins [gstRate, ovrRate, pstRate] ovrRate (by with_unfolding_all decide)

/-- C3: with no override records and exactly one compound record `c` over a
non-compound base summing to `B`, the compound entry is appended last with
effective percentage `C + C×B` and the total is `B + C + C×B`, in exact
arithmetic. -/
theorem c3_single_compound_effective (rates : List TaxRate) (c : TaxRate)
    (hno : ∀ r ∈ rates, r.override = false)
    (hcomp : rates.filter (fun r => r.compound) = [c]) :
    tax_rate_list rates =
      (((rates.filter (fun r => !r.compound)).map TaxRate.percentage).sum
         + c.percentage
         + c.percentage * ((rates.filter (fun r => !r.compound)).map TaxRate.percentage).sum,
       (rates.filter (fun r => !r.compound)).map (fun r => (r.taxCode, r.percentage))
         ++ [(c.taxCode,
              c.percentage + c.percentage *
                ((rates.filter (fun r => !r.compound)).map TaxRate.percentage).sum)]) := by
  have hmem : c ∈ rates := by
    have hm : c ∈ rates.filter (fun r => r.compound) := by rw [hcomp]; simp
    exact List.mem_of_mem_filter hm
  have hne : rates ≠ [] := by
    intro h; rw [h] at hmem; cases hmem
  have hov : rates.filter (fun x => x.override) = [] := by
    rw [List.filter_eq_nil_iff]
    intro a ha
    simp [hno a ha]
  rw [tax_rate_list_no_override rates hne hov, hcomp]
  rw [List.mergeSort_singleton, foldl_addRegular]
  simp only [List.foldl_cons, List.foldl_nil, addCompound, zero_add, List.nil_append]
  rw [Prod.ext_iff]
  refine ⟨by dsimp; ring, by simp⟩

set_option maxRecDepth 8192 in
theorem c3_witness :
    tax_rate_list [gstRate, pstRate] = (247/2000, [("GST", 1/20), ("PST", 147/2000)]) := by
  rw [c3_single_compound_effective [gstRate, pstRate] pstRate (by with_unfolding_all decide) (by with_unfolding_all decide)]
  with_unfolding_all decide

/-- `compound_le` is transitive. -/
theorem compound_le_trans (a b c : TaxRate) :
    compound_le a b → compound_le b c → compound_le a c := by
  simp only [compound_le, decide_eq_true_eq]
  omega

/-- `compound_le` is total. -/
theorem compound_le_total (a b : TaxRate) : compound_le a b || compound_le b a := by
  simp only [compound_le, Bool.or_eq_true, decide_eq_true_eq]
  omega

/-- Every element of a list lands in its `compound` filter or its
`!compound` filter. -/
theorem mem_filter_compound_or_not (r : TaxRate) (l : List TaxRate) (h : r ∈ l) :
    r ∈ l.filter (fun x => x.compound) ∨ r ∈ l.filter (fun x => !x.compound) := by
  by_cases hc : r.compound = true
  · left; exact List.mem_filter.mpr ⟨h, hc⟩
  · right; exact List.mem_filter.mpr ⟨h, by simp [hc]⟩

theorem eq_nil_of_filters_nil (l : List TaxRate)
    (h1 : l.filter (fun x => x.compound) = [])
    (h2 : l.filter (fun x => !x.compound) = []) : l = [] := by
  cases l with
  | nil => rfl
  | cons x xs =>
      exfalso
      rcases mem_filter_compound_or_not x (x :: xs) (List.mem_cons_self x xs) with h | h
      · rw [h1] at h; cases h
      · rw [h2] at h; cases h

/-- A stable sort on pairwise-distinct keys is determined by the multiset of
its input: permuting the input does not change `mergeSort`'s output. -/
theorem mergeSort_eq_of_perm_of_distinct (l1 l2 : List TaxRate)
    (hperm : l1.Perm l2)
    (hdist : l1.Pairwise (fun a b => a.compound_order ≠ b.compound_order)) :
    l1.mergeSort compound_le = l2.mergeSort compound_le := by
  have hsymm : ∀ {x y : TaxRate}, x.compound_order ≠ y.compound_order →
      y.compound_order ≠ x.compound_order := fun h => Ne.symm h
  have hdist2 : l2.Pairwise (fun a b => a.compound_order ≠ b.compound_order) :=
    (hperm.pairwise_iff hsymm).mp hdist
  have hd1 : (l1.mergeSort compound_le).Pairwise
      (fun a b => a.compound_order ≠ b.compound_order) :=
    (((List.mergeSort_perm l1 compound_le).pairwise_iff hsymm)).mpr hdist
  have hd2 : (l2.mergeSort compound_le).Pairwise
      (fun a b => a.compound_order ≠ b.compound_order) :=
    (((List.mergeSort_perm l2 compound_le).pairwise_iff hsymm)).mpr hdist2
  have hs1 := @List.sorted_mergeSort TaxRate compound_le compound_le_trans compound_le_total l1
  have hs2 := @List.sorted_mergeSort TaxRate compound_le compound_le_trans compound_le_total l2
  have hlt1 : (l1.mergeSort compound_le).Pairwise
      (fun a b => a.compound_order < b.compound_order) :=
    (hs1.and hd1).imp (fun h =>
      lt_of_le_of_ne (by simpa [compound_le] using h.1) h.2)
  have hlt2 : (l2.mergeSort compound_le).Pairwise
      (fun a b => a.compound_order < b.compound_order) :=
    (hs2.and hd2).imp (fun h =>
      lt_of_le_of_ne (by simpa [compound_le] using h.1) h.2)
  haveI : IsAntisymm TaxRate (fun a b => a.compound_order < b.compound_order) :=
    ⟨fun a b h1 h2 => absurd (lt_trans h1 h2) (lt_irrefl _)⟩
  exact List.eq_of_perm_of_sorted
    (((List.mergeSort_perm l1 compound_le).trans hperm).trans
      (List.mergeSort_perm l2 compound_le).symm)
    hlt1 hlt2

/-- C4: with no overrides and pairwise-distinct `compound_order` values, the
result of `tax_rate_list` is invariant under permuting the compound records
(first conjunct), and for two compounds `c1` (lower order) and `c2` over a
non-compound base `B` the total is
`B + (C1 + C1×B) + (C2 + C2×(B + C1 + C1×B))` even when `c2` precedes `c1`
in the input (second conjunct). -/
theorem c4_compound_permutation_invariant :
    (∀ l1 l2 : List TaxRate,
      (∀ r ∈ l1, r.override = false) →
      l1.filter (fun r => !r.compound) = l2.filter (fun r => !r.compound) →
      (l1.filter (fun r => r.compound)).Perm (l2.filter (fun r => r.compound)) →
      (l1.filter (fun r => r.compound)).Pairwise
        (fun a b => a.compound_order ≠ b.compound_order) →
      tax_rate_list l1 = tax_rate_list l2) ∧
    (∀ (regs : List TaxRate) (c1 c2 : TaxRate),
      (∀ r ∈ regs, r.override = false ∧ r.compound = false) →
      c1.override = false → c2.override = false →
      c1.compound = true → c2.compound = true →
      c1.compound_order < c2.compound_order →
      (tax_rate_list (regs ++ [c2, c1])).1 =
        (regs.map TaxRate.percentage).sum
          + (c1.percentage + c1.percentage * (regs.map TaxRate.percentage).sum)
          + (c2.percentage + c2.percentage *
              ((regs.map TaxRate.percentage).sum
                + (c1.percentage
                    + c1.percentage * (regs.map TaxRate.percentage).sum)))) := by
  constructor
  · intro l1 l2 hno hreg hperm hdist
    have hno2 : ∀ r ∈ l2, r.override = false := by
      intro r hr
      rcases mem_filter_compound_or_not r l2 hr with h | h
      · exact hno r (List.mem_of_mem_filter (hperm.mem_iff.mpr h))
      · rw [← hreg] at h
        exact hno r (List.mem_of_mem_filter h)
    by_cases h1 : l1 = []
    · subst h1
      simp only [List.filter_nil] at hreg hperm
      have h2 : l2 = [] :=
        eq_nil_of_filters_nil l2 hperm.symm.eq_nil hreg.symm
      rw [h2]
    · by_cases h2 : l2 = []
      · subst h2
        simp only [List.filter_nil] at hreg hperm
        exact absurd (eq_nil_of_filters_nil l1 hperm.eq_nil hreg) h1
      · have hov1 : l1.filter (fun x => x.override) = [] := by
          rw [List.filter_eq_nil_iff]; intro a ha; simp [hno a ha]
        have hov2 : l2.filter (fun x => x.override) = [] := by
          rw [List.filter_eq_nil_iff]; intro a ha; simp [hno2 a ha]
        rw [tax_rate_list_no_override l1 h1 hov1, tax_rate_list_no_override l2 h2 hov2,
          hreg, mergeSort_eq_of_perm_of_distinct _ _ hperm hdist]
  · intro regs c1 c2 hregs ho1 ho2 hc1 hc2 hlt
    have hfilterc : (regs ++ [c2, c1]).filter (fun r => r.compound) = [c2, c1] := by
      rw [List.filter_append]
      have : regs.filter (fun r => r.compound) = [] := by
        rw [List.filter_eq_nil_iff]; intro a ha; simp [(hregs a ha).2]
      rw [this]
      simp [hc1, hc2]
    have hfilterr : (regs ++ [c2, c1]).filter (fun r => !r.compound) = regs := by
      rw [List.filter_append]
      have h1 : regs.filter (fun r => !r.compound) = regs :=
        List.filter_eq_self.mpr (fun a ha => by simp [(hregs a ha).2])
      have h2 : ([c2, c1]).filter (fun r => !r.compound) = [] := by simp [hc1, hc2]
      rw [h1, h2, List.append_nil]
    have hov : (regs ++ [c2, c1]).filter (fun x => x.override) = [] := by
      rw [List.filter_eq_nil_iff]
      intro a ha
      rcases List.mem_append.mp ha with h | h
      · simp [(hregs a h).1]
      · rcases List.mem_cons.mp h with h' | h'
        · subst h'; simp [ho2]
        · rcases List.mem_cons.mp h' with h'' | h''
          · subst h''; simp [ho1]
          · cases h''
    have hne : regs ++ [c2, c1] ≠ [] := by simp
    have hms : ([c2, c1] : List TaxRate).mergeSort compound_le = [c1, c2] := by
      rw [mergeSort_eq_of_perm_of_distinct [c2, c1] [c1, c2] (List.Perm.swap c1 c2 [])
        (by simp [Int.ne_of_gt hlt]),
        List.mergeSort_of_sorted
          (by simp [compound_le, List.pairwise_cons, Int.le_of_lt hlt])]
    rw [tax_rate_list_no_override _ hne hov, hfilterc, hfilterr, hms, foldl_addRegular]
    simp only [List.foldl_cons, List.foldl_nil, addCompound, zero_add, List.nil_append]

theorem c4_witness :
    tax_rate_list [gstRate, qstRate, pstRate] = tax_rate_list [gstRate, pstRate, qstRate] ∧
    (tax_rate_list ([gstRate] ++ [qstRate, pstRate])).1 =
      ([gstRate].map TaxRate.percentage).sum
        + (pstRate.percentage + pstRate.percentage * ([gstRate].map TaxRate.percentage).sum)
        + (qstRate.percentage + qstRate.percentage *
            (([gstRate].map TaxRate.percentage).sum
              + (pstRate.percentage
                  + pstRate.percentage * ([gstRate].map TaxRate.percentage).sum))) :=
  ⟨c4_compound_permutation_invariant.1 [gstRate, qstRate, pstRate] [gstRate, pstRate, qstRate]
      (by with_unfolding_all decide) (by with_unfolding_all decide)
      (by with_unfolding_all decide) (by with_unfolding_all decide),
   c4_compound_permutation_invariant.2 [gstRate] pstRate qstRate
      (by with_unfolding_all decide) (by with_unfolding_all decide)
      (by with_unfolding_all decide) (by with_unfolding_all decide)
      (by with_unfolding_all decide) (by with_unfolding_all decide)⟩

/-- The compound loop appends exactly the compound records' tax codes, in
the order the loop visits them. -/
theorem foldl_addCompound_codes (cs : List TaxRate) (acc : ℚ × List (String × ℚ)) :
    ((cs.foldl addCompound acc).2).map Prod.fst =
      acc.2.map Prod.fst ++ cs.map TaxRate.taxCode := by
  induction cs generalizing acc with
  | nil => simp
  | cons c cs ih => simp [addCompound, ih]

set_option maxRecDepth 8192 in
/-- C10: compound records tied on `compound_order` keep their relative input
order in the breakdown (the sort is stable), and for tied records the result
is not invariant under permutation: swapping two tied compound records can
change the output. -/
theorem c10_tied_order_stable_not_invariant :
    (∀ (l : List TaxRate) (r1 r2 : TaxRate),
      (∀ r ∈ l, r.override = false) →
      List.Sublist [r1, r2] (l.filter (fun r => r.compound)) →
      r1.compound_order = r2.compound_order →
      List.Sublist [r1.taxCode, r2.taxCode] (((tax_rate_list l).2).map Prod.fst)) ∧
    tax_rate_list [tiedB, tiedA] ≠ tax_rate_list [tiedA, tiedB] := by
  constructor
  · intro l r1 r2 hno hsub heq
    have hmem1 : r1 ∈ l :=
      List.mem_of_mem_filter (hsub.subset (List.mem_cons_self r1 [r2]))
    have hne : l ≠ [] := by
      intro h; subst h; cases hmem1
    have hov : l.filter (fun x => x.override) = [] := by
      rw [List.filter_eq_nil_iff]; intro a ha; simp [hno a ha]
    rw [tax_rate_list_no_override l hne hov, foldl_addCompound_codes]
    have hpair : ([r1, r2] : List TaxRate).Pairwise (fun a b => compound_le a b) := by
      simp [List.pairwise_cons, compound_le, heq]
    have hsub2 : List.Sublist [r1, r2] ((l.filter (fun r => r.compound)).mergeSort compound_le) :=
      List.sublist_mergeSort compound_le_trans compound_le_total hpair hsub
    exact List.sublist_append_of_sublist_right (hsub2.map TaxRate.taxCode)
  · with_unfolding_all decide

theorem c10_witness :
    List.Sublist [tiedB.taxCode, tiedA.taxCode] (((tax_rate_list [tiedB, tiedA]).2).map Prod.fst) :=
  c10_tied_order_stable_not_invariant.1 [tiedB, tiedA] tiedB tiedA
    (by with_unfolding_all decide)
    (by with_unfolding_all exact List.Sublist.refl _)
    (by with_unfolding_all decide)

/-- C8 counterexample: with only a "Default" tax class configured, the
argument `""` is a string for which no tax class with that title exists,
yet `get_rate` raises no configuration error: the falsy string is replaced
by `"Default"` first (processor.py:88-89), so the claimed equivalence fails
at this input. -/
theorem c8_counterexample :
    (∀ cl ∈ envDefaultOnly.classes, iexactMatch cl.title "" = false) ∧
    get_rate envDefaultOnly (some (.inl "")) none none ≠
      Except.error Err.improperlyConfigured := by
  with_unfolding_all decide

/-- C8 (amended): `get_rate` raises `ImproperlyConfigured` iff the effective
lookup name — the argument when it is a nonempty string, otherwise the
"Default" fallback for `None` or the empty string — matches no tax class
title case-insensitively. A class-object argument never raises it; several
case-insensitive matches raise `MultipleObjectsReturned` instead. -/
theorem c8_config_error_iff (env : Env) (arg : Option (String ⊕ TaxClass))
    (area country : Option String) :
    get_rate env arg area country = Except.error Err.improperlyConfigured ↔
      ∃ s, effectiveName arg = some s ∧
        env.classes.filter (fun c => iexactMatch c.title s) = [] := by
  unfold get_rate effectiveName
  cases harg : normalizeArg arg with
  | inr tc => simp
  | inl s =>
      cases hfil : env.classes.filter (fun c => iexactMatch c.title s) with
      | nil =>
          simp only [djangoGet, hfil]
          simp only [Option.some_inj]
          constructor
          · intro _
            exact ⟨s, rfl, hfil⟩
          · intro _
            trivial
      | cons a t =>
          have ha : a ∈ env.classes.filter (fun c => iexactMatch c.title s) := by
            rw [hfil]; exact List.mem_cons_self a t
          have ha' := List.mem_filter.mp ha
          cases t with
          | nil =>
              simp only [djangoGet, hfil]
              simp only [reduceCtorEq, false_iff, not_exists]
              intro x ⟨hx, hnil⟩
              rw [Option.some_inj] at hx
              subst hx
              rw [hfil] at hnil
              cases hnil
          | cons b t' =>
              simp only [djangoGet, hfil]
              constructor
              · intro hc
                cases hc
              · rintro ⟨x, hx, hnil⟩
                rw [Option.some_inj] at hx
                subst hx
                rw [hfil] at hnil
                cases hnil

/-- C9 counterexample: the `TAX_CLASS` lookup in `shipping` uses `title=`
(case-sensitive exact match, processor.py:189): with the class titled
"Shipping", the configuration value "shipping" — differing only in letter
case — finds no class (shipping tax 0), while "Shipping" finds it, so the
two name strings do not resolve to the same tax class. -/
theorem c9_counterexample :
    "shipping".toLower = "Shipping".toLower ∧
    shipping shipEnvCS (some 10) true ≠ shipping shipEnvCI (some 10) true := by
  with_unfolding_all decide

/-- C9 (amended): the tax-class-by-name lookup in `get_rate` is
case-insensitive — two nonempty name strings equal up to case give
identical results — while `shipping`'s TAX_CLASS lookup is a case-sensitive
exact title match (see the counterexample). -/
theorem c9_get_rate_case_insensitive (env : Env) (s1 s2 : String)
    (area country : Option String)
    (h : s1.toLower = s2.toLower) (h1 : s1 ≠ "") (h2 : s2 ≠ "") :
    get_rate env (some (.inl s1)) area country =
      get_rate env (some (.inl s2)) area country := by
  unfold get_rate
  have hm : ∀ c ∈ env.classes, iexactMatch c.title s1 = iexactMatch c.title s2 := by
    intro c _
    unfold iexactMatch
    rw [h]
  simp only [normalizeArg, if_neg h1, if_neg h2]
  rw [List.filter_congr hm]

theorem c9_witness :
    get_rate shipEnvCS (some (.inl "shipping")) none none =
      get_rate shipEnvCS (some (.inl "SHIPPING")) none none :=
  c9_get_rate_case_insensitive shipEnvCS "shipping" "SHIPPING" none none
    (by with_unfolding_all decide) (by with_unfolding_all decide)
    (by with_unfolding_all decide)

/-- C1: the separate-details branch reads `ship_tax_details['taxCode']` —
the literal key — instead of the loop variable's entry (processor.py:255).
On an order whose shipping tax details hold the single code "GST" with tax
0.50, the claim expects `tax_details['Shipping GST'] = 0.50`, but `process`
raises `KeyError('taxCode')`. -/
theorem c1_separate_details_key_error :
    shipping { sepEnv with order := some sepOrder } none true =
      Except.ok (1/2, [("GST", 1/2)]) ∧
    process sepEnv sepOrder = Except.error (Err.keyError "taxCode") := by
  with_unfolding_all decide

/-- A filter on exact titles over a list with pairwise-distinct titles
keeps at most one element. -/
theorem filter_title_short (classes : List TaxClass) (T : String)
    (h : classes.Pairwise (fun a b => a.title ≠ b.title)) :
    classes.filter (fun c => c.title = T) = [] ∨
      ∃ c, classes.filter (fun c => c.title = T) = [c] := by
  induction classes with
  | nil => left; rfl
  | cons x xs ih =>
      have hx := List.pairwise_cons.mp h
      by_cases hT : x.title = T
      · right
        refine ⟨x, ?_⟩
        rw [List.filter_cons_of_pos (by simp [hT])]
        have hnil : xs.filter (fun c => c.title = T) = [] := by
          rw [List.filter_eq_nil_iff]
          intro a ha
          simp only [decide_eq_true_eq]
          intro hEq
          exact hx.1 a ha (hT.trans hEq.symm)
        rw [hnil]
      · rcases ih hx.2 with h0 | ⟨c, hc⟩
        · left
          rw [List.filter_cons_of_neg (by simp [hT]), h0]
        · right
          exact ⟨c, by rw [List.filter_cons_of_neg (by simp [hT]), hc]⟩

/-- C7: with a positive subtotal, `shipping` never raises; it returns 0.00
when the shipping-tax flag is disabled, and also 0.00 (after logging) when
the flag is enabled but no tax class titled `TAX_CLASS` exists. The
tax-class directory is keyed by title (spec §6), hence the pairwise-distinct
titles hypothesis. -/
theorem c7_shipping_never_raises (env : Env) (st : ℚ) (wd : Bool)
    (hpos : 0 < st)
    (huniq : env.classes.Pairwise (fun a b => a.title ≠ b.title)) :
    ∃ res, shipping env (some st) wd = Except.ok res ∧
      (env.cfg.TAX_SHIPPING_CANADIAN = false → res.1 = 0) ∧
      ((∀ cl ∈ env.classes, cl.title ≠ env.cfg.TAX_CLASS) → res.1 = 0) := by
  have htr : truthyQ (some st) = true := by
    simp only [truthyQ, decide_eq_true_eq]
    exact ne_of_gt hpos
  cases hflag : env.cfg.TAX_SHIPPING_CANADIAN with
  | false =>
      refine ⟨(0, []), ?_, fun _ => rfl, fun _ => rfl⟩
      simp only [shipping, hflag, htr, Bool.false_eq_true, if_false, if_true]
      cases wd <;> rfl
  | true =>
      rcases filter_title_short env.classes env.cfg.TAX_CLASS huniq with hfil | ⟨c, hfil⟩
      · refine ⟨(0, []), ?_, ?_, fun _ => rfl⟩
        · simp only [shipping, hflag, htr, if_true]
          rw [hfil]
          cases wd <;> rfl
        · intro h; exact Bool.noConfusion h
      · refine ⟨((if (tax_rate_list (ratesFor env c env.locArea env.locCountry)).1 ≠ 0
            then (tax_rate_list (ratesFor env c env.locArea env.locCountry)).1 * st else 0),
            if wd then ((tax_rate_list (ratesFor env c env.locArea env.locCountry)).2).foldl
              (fun d p => addTo d p.1 (p.2 * st)) [] else []), ?_, ?_, ?_⟩
        · simp only [shipping, hflag, htr, if_true]
          rw [hfil]
          rfl
        · intro h; exact Bool.noConfusion h
        · intro h
          exfalso
          have hc : c ∈ env.classes.filter (fun x => x.title = env.cfg.TAX_CLASS) := by
            rw [hfil]; exact List.mem_cons_self c []
          have hc' := List.mem_filter.mp hc
          exact h c hc'.1 (by simpa using hc'.2)

theorem c7_witness :
    ∃ res, shipping shipEnvCS (some 10) true = Except.ok res ∧
      (shipEnvCS.cfg.TAX_SHIPPING_CANADIAN = false → res.1 = 0) ∧
      ((∀ cl ∈ shipEnvCS.classes, cl.title ≠ shipEnvCS.cfg.TAX_CLASS) → res.1 = 0) :=
  c7_shipping_never_raises shipEnvCS 10 true (by norm_num)
    (by with_unfolding_all decide)

/-! ### Dictionary lemmas for the tax-detail accumulation -/

theorem getD_nil (c : String) : getD [] c = 0 := rfl

/-- Reading a dict that starts with entry `(k', v')`. -/
theorem getD_cons (k' : String) (v' : ℚ) (rest : List (String × ℚ)) (c : String) :
    getD ((k', v') :: rest) c = if k' = c then v' else getD rest c := by
  by_cases h : k' = c
  · unfold getD
    rw [List.find?_cons_of_pos _ (by simp [h]), if_pos h]
  · unfold getD
    rw [List.find?_cons_of_neg _ (by simp [h]), if_neg h]

/-- Reading after a dict assignment. -/
theorem getD_setKey (d : List (String × ℚ)) (k c : String) (v : ℚ) :
    getD (setKey d k v) c = if k = c then v else getD d c := by
  induction d with
  | nil => simp [setKey, getD_cons, getD_nil]
  | cons p rest ih =>
      obtain ⟨k', v'⟩ := p
      by_cases hk : k' = k
      · subst hk
        by_cases h : k' = c <;> simp [setKey, getD_cons, h]
      · simp only [setKey, if_neg hk]
        rw [getD_cons, getD_cons, ih]
        by_cases hc : k' = c
        · rw [if_pos hc, if_neg (fun h => hk (hc.trans h.symm)), if_pos hc]
        · rw [if_neg hc, if_neg hc]

/-- Reading after the `if k not in d: d[k]=0; d[k] += v` idiom. -/
theorem getD_addTo (d : List (String × ℚ)) (k c : String) (v : ℚ) :
    getD (addTo d k v) c = if k = c then getD d c + v else getD d c := by
  unfold addTo
  rw [getD_setKey]
  by_cases h : k = c
  · subst h; simp
  · simp [h]

/-- Accumulating a list of entries into a dict adds, at each key, the sum of
the contributions of the matching entries. -/
theorem getD_foldl_addTo (f : String × ℚ → ℚ) (es : List (String × ℚ))
    (d0 : List (String × ℚ)) (c : String) :
    getD (es.foldl (fun d p => addTo d p.1 (f p)) d0) c =
      getD d0 c + ((es.filter (fun p => p.1 = c)).map f).sum := by
  induction es generalizing d0 with
  | nil => simp
  | cons p es ih =>
      rw [List.foldl_cons, ih, getD_addTo]
      by_cases h : p.1 = c
      · rw [if_pos h, List.filter_cons_of_pos (by simp [h])]
        simp [add_assoc]
      · rw [if_neg h, List.filter_cons_of_neg (by simp [h])]

/-- Assigning a key leaves the key sequence unchanged if present, else
appends the key. -/
theorem keys_setKey (d : List (String × ℚ)) (k : String) (v : ℚ) :
    (setKey d k v).map Prod.fst =
      if k ∈ d.map Prod.fst then d.map Prod.fst else d.map Prod.fst ++ [k] := by
  induction d with
  | nil => simp [setKey]
  | cons p rest ih =>
      obtain ⟨k', v'⟩ := p
      by_cases h : k' = k
      · subst h
        simp [setKey]
      · simp only [setKey, if_neg h, List.map_cons, ih, List.mem_cons]
        by_cases hm : k ∈ rest.map Prod.fst
        · rw [if_pos hm, if_pos (Or.inr hm)]
        · rw [if_neg hm, if_neg (by rintro (h' | h') <;> [exact h h'.symm; exact hm h'])]
          simp

/-- Python dicts have unique keys: `setKey` preserves that. -/
theorem nodup_keys_setKey (d : List (String × ℚ)) (k : String) (v : ℚ)
    (h : (d.map Prod.fst).Nodup) : ((setKey d k v).map Prod.fst).Nodup := by
  rw [keys_setKey]
  split
  · exact h
  · next hm =>
      rw [List.nodup_append]
      exact ⟨h, List.nodup_singleton k, by simpa using hm⟩

theorem nodup_keys_addTo (d : List (String × ℚ)) (k : String) (v : ℚ)
    (h : (d.map Prod.fst).Nodup) : ((addTo d k v).map Prod.fst).Nodup :=
  nodup_keys_setKey d k (getD d k + v) h

theorem nodup_keys_foldl_addTo (f : String × ℚ → ℚ) (es d0 : List (String × ℚ))
    (h : (d0.map Prod.fst).Nodup) :
    (((es.foldl (fun d p => addTo d p.1 (f p)) d0).map Prod.fst)).Nodup := by
  induction es generalizing d0 with
  | nil => exact h
  | cons p es ih => exact ih _ (nodup_keys_addTo _ _ _ h)

/-- On a dict with unique keys, summing `getD sd` over the entries matching
`c` yields exactly `getD sd c`. -/
theorem sum_filter_getD (sd : List (String × ℚ)) (c : String)
    (h : (sd.map Prod.fst).Nodup) :
    ((sd.filter (fun p => p.1 = c)).map (fun p => getD sd p.1)).sum = getD sd c := by
  induction sd with
  | nil => simp [getD_nil]
  | cons p rest ih =>
      obtain ⟨k, v⟩ := p
      simp only [List.map_cons, List.nodup_cons] at h
      by_cases hk : k = c
      · subst hk
        rw [List.filter_cons_of_pos (by simp)]
        have hrest : rest.filter (fun p => p.1 = k) = [] := by
          rw [List.filter_eq_nil_iff]
          intro a ha
          simp only [decide_eq_true_eq]
          intro hEq
          exact h.1 (hEq ▸ List.mem_map_of_mem Prod.fst ha)
        rw [hrest]
        simp [getD_cons]
      · rw [List.filter_cons_of_neg (by simp [hk])]
        have hcongr : ∀ p ∈ rest.filter (fun p => p.1 = c),
            getD ((k, v) :: rest) p.1 = getD rest p.1 := by
          intro p hp
          have hpc := List.of_mem_filter hp
          simp only [decide_eq_true_eq] at hpc
          rw [hpc, getD_cons, if_neg hk]
        rw [List.map_congr_left hcongr, ih h.2, getD_cons, if_neg hk]

/-- Whenever `shipping` succeeds, the detail dict it returns has unique
keys (it is built key-by-key with the `addTo` idiom from an empty dict). -/
theorem shipping_details_nodup (env : Env) (subtotal : Option ℚ) (wd : Bool)
    (s : ℚ) (sd : List (String × ℚ))
    (h : shipping env subtotal wd = Except.ok (s, sd)) :
    (sd.map Prod.fst).Nodup := by
  unfold shipping at h
  dsimp only at h
  repeat' split at h
  all_goals
    first
      | exact Except.noConfusion h
      | (injection h with h
         injection h with h1 h2
         subst h2
         first
           | exact List.nodup_nil
           | exact nodup_keys_foldl_addTo _ _ _ List.nodup_nil)

/-- `get_rate` never reads `self.order`, so setting it (as `process` does)
does not change any lookup. -/
theorem itemTaxes_order_irrel (env : Env) (o : Option Order) (item : OrderItem) :
    itemTaxes { env with order := o } item = itemTaxes env item := rfl

/-- The item loop of `process` adds, at each tax code, each matching rate
times the item subtotal (processor.py:240-247). -/
theorem processItems_getD (env : Env) (items : List OrderItem)
    (acc out : ℚ × List (String × ℚ))
    (h : processItems env items acc = Except.ok out) (c : String) :
    getD out.2 c = getD acc.2 c +
      (items.map (fun it =>
        (((itemTaxes env it).filter (fun p => p.1 = c)).map
          (fun p => p.2 * it.sub_total)).sum)).sum := by
  induction items generalizing acc with
  | nil =>
      unfold processItems at h
      injection h with h
      subst h
      simp
  | cons item rest ih =>
      obtain ⟨a1, a2⟩ := acc
      unfold processItems at h
      cases hgr : get_rate env (item.taxClass.map Sum.inr) none none with
      | error e =>
          rw [hgr] at h
          exact Except.noConfusion h
      | ok pr =>
          obtain ⟨fr, ts⟩ := pr
          rw [hgr] at h
          dsimp only at h
          have hout := ih _ h
          have hit : itemTaxes env item = ts := by
            unfold itemTaxes
            rw [hgr]
          rw [hout, getD_foldl_addTo, List.map_cons, List.sum_cons, hit]
          dsimp only
          ring

/-- C6: in the merged-details branch of `process`
(`TAX_SHIPPING_DETAILS_SEPARATE` disabled), the returned detail map at each
tax code equals the merchandise contribution (each matching rate times item
subtotal, over the taxable items) plus the shipping contribution at the
same code; keys start at 0 (created on first use) and are summed. -/
theorem c6_merged_details_sum (env : Env) (order : Order)
    (t s : ℚ) (d sd : List (String × ℚ))
    (hp : process env order = Except.ok (t, d))
    (hs : shipping { env with order := some order } none true = Except.ok (s, sd))
    (hflag : env.cfg.TAX_SHIPPING_DETAILS_SEPARATE = false) (c : String) :
    getD d c = merchDetail env order c + getD sd c := by
  unfold process at hp
  dsimp only at hp
  cases hpi : processItems { env with order := some order }
      (order.items.filter (fun i => i.taxable)) (0, []) with
  | error e =>
      rw [hpi] at hp
      exact Except.noConfusion hp
  | ok acc =>
      obtain ⟨ms, md⟩ := acc
      rw [hpi] at hp
      dsimp only at hp
      rw [hs] at hp
      dsimp only at hp
      rw [hflag] at hp
      rw [if_neg (by simp)] at hp
      injection hp with hp
      injection hp with hp1 hp2
      subst hp2
      have hnodup := shipping_details_nodup _ _ _ _ _ hs
      have hmd := processItems_getD _ _ _ _ hpi c
      calc getD (sd.foldl
            (fun td p => setKey td p.1 (getD td p.1 + getD sd p.1)) md) c
          = getD (sd.foldl
            (fun td p => addTo td p.1 ((fun q => getD sd q.1) p)) md) c := rfl
        _ = getD md c
            + ((sd.filter (fun p => p.1 = c)).map (fun q => getD sd q.1)).sum := by
            rw [getD_foldl_addTo]
        _ = getD md c + getD sd c := by rw [sum_filter_getD sd c hnodup]
        _ = merchDetail env order c + getD sd c := by
            rw [hmd]
            have hm : merchDetail env order c =
                ((order.items.filter (fun i => i.taxable)).map (fun it =>
                  (((itemTaxes { env with order := some order } it).filter
                    (fun p => p.1 = c)).map (fun p => p.2 * it.sub_total)).sum)).sum := rfl
            rw [hm]
            dsimp only
            rw [getD_nil, zero_add]

set_option maxRecDepth 16384 in
theorem c6_witness :
    getD [("GST", 11/2), ("PST", 1617/200)] "GST" =
      merchDetail mergedEnv mergedOrder "GST" + getD [("GST", 1/2), ("PST", 147/200)] "GST" :=
  c6_merged_details_sum mergedEnv mergedOrder (2717/200) (247/200)
    [("GST", 11/2), ("PST", 1617/200)] [("GST", 1/2), ("PST", 147/200)]
    (by with_unfolding_all rfl) (by with_unfolding_all rfl) rfl "GST"

end CanadaTax
